import Mathlib

/-!
Verification of the deterministic core of the restaurant-review pipeline
(`main.py`): the name-normalizing review store, the scoring function, and the
fixed three-stage chat sequence of the coordinator.

The Python source is shallowly embedded: Python `int` becomes `Int`, Python
lists become `List`, the float arithmetic of the scorer is modelled over the
exact reals `ℝ`, exceptions become `Except`/`Option`, and the review index
(a Python `dict` keyed by strings, insertion-ordered) becomes an association
list.  The corpus file is abstracted as the list of its lines.
-/

set_option autoImplicit false

namespace RestaurantReviews

/-! ## Character-level helpers

`str.lower` and `str.isalnum` are modelled, per character, by the core
functions `Char.toLower` and `Char.isAlphanum` (both operating on the ASCII
range, which covers every name in the corpus format). -/

theorem charOfNat_toNat (n : Nat) (h1 : 65 ≤ n) (h2 : n ≤ 90) :
    (Char.ofNat (n + 32)).toNat = n + 32 := by
  have hv : (n + 32).isValidChar := by left; omega
  rw [Char.ofNat, dif_pos hv]
  rfl

theorem toLower_fix (c : Char) (h : ¬(65 ≤ c.toNat ∧ c.toNat ≤ 90)) : c.toLower = c := by
  rw [Char.toLower, if_neg]
  omega

theorem toLower_toLower (c : Char) : c.toLower.toLower = c.toLower := by
  by_cases h : 65 ≤ c.toNat ∧ c.toNat ≤ 90
  · have h1 : c.toLower = Char.ofNat (c.toNat + 32) := by
      rw [Char.toLower, if_pos h]
    apply toLower_fix
    rw [h1, charOfNat_toNat c.toNat h.1 h.2]
    omega
  · rw [toLower_fix c h, toLower_fix c h]

/-! ## Name normalization

`normalize_restaurant_name`: lowercase the name, then keep only the
alphanumeric characters. -/

/-- Embedding of `normalize_restaurant_name`: `restaurant_name.lower()`
followed by keeping the characters `c` with `c.isalnum()`. -/
def normalize_restaurant_name (restaurant_name : String) : String :=
  ⟨(restaurant_name.data.map Char.toLower).filter Char.isAlphanum⟩

/-- The raw name `Applebee` + apostrophe + `s`, the apostrophe written as
character code 39. -/
def applebeesRaw : String :=
  ⟨['A', 'p', 'p', 'l', 'e', 'b', 'e', 'e', Char.ofNat 39, 's']⟩

theorem normalize_map_toLower_fix (l : List Char) :
    ((l.map Char.toLower).filter Char.isAlphanum).map Char.toLower =
      (l.map Char.toLower).filter Char.isAlphanum := by
  have hfix : ∀ c ∈ (l.map Char.toLower).filter Char.isAlphanum, c.toLower = c := by
    intro c hc
    have hc' := (List.mem_filter.mp hc).1
    obtain ⟨a, _, rfl⟩ := List.mem_map.mp hc'
    exact toLower_toLower a
  calc ((l.map Char.toLower).filter Char.isAlphanum).map Char.toLower
      = ((l.map Char.toLower).filter Char.isAlphanum).map id :=
        List.map_congr_left hfix
    _ = (l.map Char.toLower).filter Char.isAlphanum := List.map_id _

/-- C6: name normalization is total (a total Lean function by construction)
and idempotent, and identifies the apostrophized `Applebee` + `s` name,
`APPLEBEES` and `applebees`. -/
theorem normalize_restaurant_name_idempotent :
    (∀ restaurant_name : String,
      normalize_restaurant_name (normalize_restaurant_name restaurant_name) =
        normalize_restaurant_name restaurant_name)
    ∧ normalize_restaurant_name applebeesRaw = normalize_restaurant_name "APPLEBEES"
    ∧ normalize_restaurant_name "APPLEBEES" = normalize_restaurant_name "applebees" := by
  refine ⟨?_, by decide, by decide⟩
  intro s
  show (⟨((normalize_restaurant_name s).data.map Char.toLower).filter Char.isAlphanum⟩ : String) =
    normalize_restaurant_name s
  rw [normalize_restaurant_name]
  show (⟨((((s.data.map Char.toLower).filter Char.isAlphanum).map Char.toLower).filter
      Char.isAlphanum : List Char)⟩ : String) = _
  rw [normalize_map_toLower_fix]
  rw [List.filter_eq_self.mpr]
  intro a ha
  exact (List.mem_filter.mp ha).2

/-! ## The review store

`fetch_restaurant_reviews_hash` reads `restaurant-data.txt`, splits every line
at the first occurrence of the two-character delimiter (period then space)
into a restaurant name and a review, and appends the review to the list held
under the normalized name.  The file contents are abstracted as the list of
its lines; the Python `dict` becomes an insertion-ordered association list. -/

/-- The review index: an insertion-ordered association list modelling the
Python `dict` from normalized names to review lists. -/
abbrev ReviewsHash := List (String × List String)

/-- Models `restaurant_name in reviews_hash`. -/
def dictContains (reviews_hash : ReviewsHash) (k : String) : Bool :=
  reviews_hash.any (fun p => p.1 == k)

/-- Models `reviews_hash[k]` lookup (first entry with the key). -/
def dictFind (reviews_hash : ReviewsHash) (k : String) : Option (List String) :=
  match reviews_hash with
  | [] => none
  | p :: rest => if p.1 = k then some p.2 else dictFind rest k

/-- Models `reviews_hash[k].append(r)` on an existing key: every entry with
key `k` gets `r` appended (keys are unique in the lists we build). -/
def dictAppendAt (reviews_hash : ReviewsHash) (k : String) (r : String) : ReviewsHash :=
  reviews_hash.map (fun p => if p.1 = k then (p.1, p.2 ++ [r]) else p)

/-- Models the loop body on `reviews_hash`:
`if k not in reviews_hash: reviews_hash[k] = []` then
`reviews_hash[k].append(r)`. -/
def addReview (reviews_hash : ReviewsHash) (k : String) (r : String) : ReviewsHash :=
  if dictContains reviews_hash k then dictAppendAt reviews_hash k r
  else dictAppendAt (reviews_hash ++ [(k, [])]) k r

/-- Splits a character list at the first occurrence of period-then-space;
`none` when there is no such occurrence. -/
def splitOnFirstAux : List Char → Option (List Char × List Char)
  | [] => none
  | '.' :: ' ' :: rest => some ([], rest)
  | c :: rest =>
    match splitOnFirstAux rest with
    | none => none
    | some (pre, post) => some (c :: pre, post)

/-- Models `line.split(". ", 1)` together with the two-variable unpacking:
`some (name, review)` splits at the first delimiter occurrence, `none` models
the ValueError raised by the unpacking when no delimiter occurs. -/
def splitFirstDotSpace (line : String) : Option (String × String) :=
  match splitOnFirstAux line.data with
  | none => none
  | some (pre, post) => some (⟨pre⟩, ⟨post⟩)

/-- The load-time failure: a corpus line without the delimiter (the ValueError
of the unpacking, named `MalformedLineError` by the spec). -/
inductive LoadError where
  | malformedLine
  deriving DecidableEq

/-- The `for line in lines` loop of `fetch_restaurant_reviews_hash`,
generalized over the accumulated hash. -/
def loadLines (reviews_hash : ReviewsHash) : List String → Except LoadError ReviewsHash
  | [] => .ok reviews_hash
  | line :: rest =>
    match splitFirstDotSpace line with
    | none => .error .malformedLine
    | some (restaurant_name, review) =>
      loadLines (addReview reviews_hash (normalize_restaurant_name restaurant_name) review) rest

/-- Embedding of `fetch_restaurant_reviews_hash`, the corpus file abstracted
as the list of its lines. -/
def fetch_restaurant_reviews_hash (lines : List String) : Except LoadError ReviewsHash :=
  loadLines [] lines

/-- Embedding of `fetch_restaurant_data`: the singleton result dict is a pair.
The key is the raw input name; the lookup key is the normalized name, with
`.get(key, [])` defaulting to the empty list. -/
def fetch_restaurant_data (restaurant_reviews_hash : ReviewsHash)
    (restaurant_name : String) : String × List String :=
  (restaurant_name,
    (dictFind restaurant_reviews_hash (normalize_restaurant_name restaurant_name)).getD [])

/-- Written from the spec text of the round-trip property: the reviews of all
well-formed corpus lines whose name part normalizes to `k`, in file order. -/
def corpusReviewsFor (lines : List String) (k : String) : List String :=
  lines.filterMap (fun line =>
    match splitFirstDotSpace line with
    | none => none
    | some (restaurant_name, review) =>
      if normalize_restaurant_name restaurant_name = k then some review else none)

theorem dictFind_dictAppendAt_self (h : ReviewsHash) (k : String) (r : String) :
    dictFind (dictAppendAt h k r) k = (dictFind h k).map (fun v => v ++ [r]) := by
  induction h with
  | nil => rfl
  | cons p t ih =>
    by_cases hpk : p.1 = k
    · simp [dictAppendAt, dictFind, hpk]
    · simp only [dictAppendAt, List.map_cons, if_neg hpk, dictFind]
      simpa [dictAppendAt] using ih

theorem dictFind_dictAppendAt_other (h : ReviewsHash) (k k' : String) (r : String)
    (hne : k' ≠ k) :
    dictFind (dictAppendAt h k r) k' = dictFind h k' := by
  induction h with
  | nil => rfl
  | cons p t ih =>
    by_cases hpk : p.1 = k
    · have hpk' : ¬p.1 = k' := by rw [hpk]; exact fun hc => hne hc.symm
      simp only [dictAppendAt, List.map_cons, if_pos hpk, dictFind, if_neg hpk']
      simpa [dictAppendAt] using ih
    · simp only [dictAppendAt, List.map_cons, if_neg hpk, dictFind]
      by_cases hpk2 : p.1 = k'
      · rw [if_pos hpk2, if_pos hpk2]
      · rw [if_neg hpk2, if_neg hpk2]
        simpa [dictAppendAt] using ih

theorem dictFind_append_new (h : ReviewsHash) (k : String)
    (habs : dictFind h k = none) :
    dictFind (h ++ [(k, [])]) k = some [] := by
  induction h with
  | nil => simp [dictFind]
  | cons p t ih =>
    simp only [dictFind] at habs
    by_cases hpk : p.1 = k
    · rw [if_pos hpk] at habs; exact absurd habs (by simp)
    · rw [if_neg hpk] at habs
      simp only [List.cons_append, dictFind, if_neg hpk]
      exact ih habs

theorem dictFind_append_other (h : ReviewsHash) (k k' : String) (hne : k' ≠ k) :
    dictFind (h ++ [(k, [])]) k' = dictFind h k' := by
  induction h with
  | nil =>
    show dictFind [(k, [])] k' = none
    rw [dictFind, if_neg (fun hc => hne hc.symm)]
    rfl
  | cons p t ih =>
    simp only [List.cons_append, dictFind]
    by_cases hpk : p.1 = k'
    · rw [if_pos hpk, if_pos hpk]
    · rw [if_neg hpk, if_neg hpk]
      exact ih

theorem dictContains_iff_dictFind (h : ReviewsHash) (k : String) :
    dictContains h k = true ↔ (dictFind h k).isSome := by
  induction h with
  | nil => simp [dictContains, dictFind]
  | cons p t ih =>
    by_cases hpk : p.1 = k
    · simp [dictContains, dictFind, hpk]
    · simp only [dictContains, List.any_cons, dictFind, if_neg hpk]
      rw [beq_eq_false_iff_ne.mpr hpk]
      simpa [dictContains] using ih

theorem addReview_getD (h : ReviewsHash) (k k' : String) (r : String) :
    (dictFind (addReview h k r) k').getD [] =
      (dictFind h k').getD [] ++ (if k = k' then [r] else []) := by
  by_cases hk : k = k'
  · subst hk
    rw [addReview]
    by_cases hc : dictContains h k = true
    · rw [if_pos hc, dictFind_dictAppendAt_self]
      have hs := (dictContains_iff_dictFind h k).mp hc
      obtain ⟨v, hv⟩ := Option.isSome_iff_exists.mp hs
      rw [hv]
      simp
    · rw [if_neg hc, dictFind_dictAppendAt_self, dictFind_append_new]
      · have : dictFind h k = none := by
          by_contra hne
          exact hc ((dictContains_iff_dictFind h k).mpr
            (Option.isSome_iff_exists.mpr (Option.ne_none_iff_exists'.mp hne)))
        rw [this]
        simp
      · by_contra hne
        exact hc ((dictContains_iff_dictFind h k).mpr
          (Option.isSome_iff_exists.mpr (Option.ne_none_iff_exists'.mp hne)))
  · have hk' : k' ≠ k := fun hc => hk hc.symm
    rw [addReview]
    by_cases hc : dictContains h k = true
    · rw [if_pos hc, dictFind_dictAppendAt_other h k k' r hk', if_neg hk]
      simp
    · rw [if_neg hc, dictFind_dictAppendAt_other _ k k' r hk',
        dictFind_append_other h k k' hk', if_neg hk]
      simp

theorem loadLines_getD (lines : List String) (h h' : ReviewsHash) (k : String)
    (hload : loadLines h lines = .ok h') :
    (dictFind h' k).getD [] = (dictFind h k).getD [] ++ corpusReviewsFor lines k := by
  induction lines generalizing h with
  | nil =>
    simp only [loadLines, Except.ok.injEq] at hload
    subst hload
    simp [corpusReviewsFor]
  | cons line rest ih =>
    rw [loadLines] at hload
    cases hsplit : splitFirstDotSpace line with
    | none => rw [hsplit] at hload; exact absurd hload (by simp)
    | some nr =>
      obtain ⟨n, r⟩ := nr
      rw [hsplit] at hload
      rw [ih _ hload, addReview_getD]
      have hcons : corpusReviewsFor (line :: rest) k =
          (if normalize_restaurant_name n = k then [r] else []) ++ corpusReviewsFor rest k := by
        simp only [corpusReviewsFor, List.filterMap_cons, hsplit]
        by_cases hnk : normalize_restaurant_name n = k
        · rw [if_pos hnk, if_pos hnk]
          rfl
        · rw [if_neg hnk, if_neg hnk]
          rfl
      rw [hcons, List.append_assoc]

/-- C3: after a successful load, `fetch_restaurant_data` returns the raw name
together with exactly the reviews of the corpus lines whose name part
normalizes like it, split at the first delimiter, in file order. -/
theorem reviews_roundtrip (lines : List String) (h : ReviewsHash)
    (restaurant_name : String)
    (hload : fetch_restaurant_reviews_hash lines = .ok h) :
    fetch_restaurant_data h restaurant_name =
      (restaurant_name,
        corpusReviewsFor lines (normalize_restaurant_name restaurant_name)) := by
  rw [fetch_restaurant_data]
  rw [loadLines_getD lines [] h _ hload]
  rfl

/-- C3 witness: loading the two-line corpus with the `Pasta Place` line and an
unrelated line, then fetching `Pasta Place`, yields exactly its one review. -/
theorem reviews_roundtrip_witness :
    fetch_restaurant_reviews_hash ["Pasta Place. Great food.", "Burger Barn. Fine."] =
      .ok [("pastaplace", ["Great food."]), ("burgerbarn", ["Fine."])]
    ∧ fetch_restaurant_data [("pastaplace", ["Great food."]), ("burgerbarn", ["Fine."])]
        "Pasta Place" = ("Pasta Place", ["Great food."]) := by
  constructor
  · rfl
  · rw [reviews_roundtrip ["Pasta Place. Great food.", "Burger Barn. Fine."] _
      "Pasta Place" (by rfl)]
    decide

/-- C4: `fetch_restaurant_data` echoes the raw input name as the sole key,
performs the lookup under the normalized key, and yields the empty list (never
an error: the function is total) when the normalized key is absent. -/
theorem fetch_restaurant_data_echoes_name (restaurant_reviews_hash : ReviewsHash)
    (restaurant_name : String) :
    (fetch_restaurant_data restaurant_reviews_hash restaurant_name).1 = restaurant_name
    ∧ (fetch_restaurant_data restaurant_reviews_hash restaurant_name).2 =
        (dictFind restaurant_reviews_hash
          (normalize_restaurant_name restaurant_name)).getD []
    ∧ (dictFind restaurant_reviews_hash (normalize_restaurant_name restaurant_name) = none →
        fetch_restaurant_data restaurant_reviews_hash restaurant_name =
          (restaurant_name, [])) := by
  refine ⟨rfl, rfl, fun hmiss => ?_⟩
  rw [fetch_restaurant_data, hmiss]
  rfl

/-- C4 witness: a lookup miss on `Nowhere` over a loaded index returns the
verbatim key and the empty review list. -/
theorem fetch_restaurant_data_echoes_name_witness :
    dictFind [("pastaplace", ["Great food."])]
      (normalize_restaurant_name "Nowhere") = none
    ∧ fetch_restaurant_data [("pastaplace", ["Great food."])] "Nowhere" =
        ("Nowhere", []) :=
  ⟨by rfl,
    (fetch_restaurant_data_echoes_name [("pastaplace", ["Great food."])] "Nowhere").2.2
      (by rfl)⟩

theorem loadLines_malformed (lines : List String) (reviews_hash : ReviewsHash)
    (hbad : ∃ line ∈ lines, splitFirstDotSpace line = none) :
    loadLines reviews_hash lines = .error .malformedLine := by
  induction lines generalizing reviews_hash with
  | nil => exact absurd hbad (by simp)
  | cons line rest ih =>
    rw [loadLines]
    cases hsplit : splitFirstDotSpace line with
    | none => rfl
    | some nr =>
      obtain ⟨n, r⟩ := nr
      obtain ⟨l, hl, hnone⟩ := hbad
      rcases List.mem_cons.mp hl with hhead | htail
      · rw [hhead] at hnone
        rw [hnone] at hsplit
        exact absurd hsplit (by simp)
      · exact ih _ ⟨l, htail, hnone⟩

/-- C5: a corpus with at least one line lacking the period-space delimiter
makes the load fail (the spec names this `MalformedLineError`); no index is
returned. -/
theorem malformed_line_aborts_load (lines : List String)
    (hbad : ∃ line ∈ lines, splitFirstDotSpace line = none) :
    fetch_restaurant_reviews_hash lines = .error .malformedLine :=
  loadLines_malformed lines [] hbad

/-- C5 witness: a corpus whose second line has no delimiter fails to load. -/
theorem malformed_line_aborts_load_witness :
    (∃ line ∈ ["Pasta Place. Great food.", "No delimiter here"],
      splitFirstDotSpace line = none)
    ∧ fetch_restaurant_reviews_hash ["Pasta Place. Great food.", "No delimiter here"] =
        .error .malformedLine :=
  ⟨⟨"No delimiter here", by simp, by rfl⟩,
    malformed_line_aborts_load _ ⟨"No delimiter here", by simp, by rfl⟩⟩

/-! ## The scorer

`calculate_overall_score` sums `math.sqrt(food_scores[i]**2 *
customer_service_scores[i])` over `i in range(len(food_scores))`, divides by
`N * math.sqrt(125)` after multiplying by 10, and formats the result with
`"{:.3f}".format`.  Floats are modelled by the exact reals; the three runtime
failures of the loop and the division are made explicit. -/

/-- The runtime failures of `calculate_overall_score`: reading past the end of
`customer_service_scores`, `math.sqrt` of a negative product (math domain
ValueError), and the `0 / 0.0` division when `food_scores` is empty. -/
inductive ScoreError where
  | indexError
  | valueError
  | zeroDivisionError
  deriving DecidableEq

/-- The `for i in range(N)` loop of `calculate_overall_score`, generalized
over the running `total_score`.  Each iteration reads the two scores at the
same index (pattern-matching the two lists in step), checks the `math.sqrt`
domain on the integer product, and accumulates left to right. -/
noncomputable def scoreLoop (total_score : ℝ) :
    List ℤ → List ℤ → Except ScoreError ℝ
  | [], _ => .ok total_score
  | _ :: _, [] => .error .indexError
  | food_score :: fs, service_score :: ss =>
    if food_score ^ 2 * service_score < 0 then .error .valueError
    else scoreLoop (total_score + Real.sqrt ((food_score ^ 2 * service_score : ℤ) : ℝ)) fs ss

/-- One decimal digit as a character. -/
def digitChar (n : Nat) : Char := Char.ofNat (48 + n)

/-- The three zero-padded digits of `n` (for `n < 1000`): the fractional part
of the `"{:.3f}"` rendering. -/
def fracDigits (n : Nat) : List Char :=
  [digitChar (n / 100), digitChar (n / 10 % 10), digitChar (n % 10)]

/-- Renders `m` thousandths as a decimal string with exactly three digits
after the decimal point. -/
def renderThousandths (m : ℤ) : String :=
  (if m < 0 then "-" else "") ++ toString (m.natAbs / 1000) ++ "." ++
    String.mk (fracDigits (m.natAbs % 1000))

/-- Models `"{:.3f}".format`: round the real value to the nearest thousandth
(ties half-up; the spec accepts either tie convention, and no claim sits on a
tie) and render it with exactly three digits after the decimal point. -/
noncomputable def pyFormat3 (x : ℝ) : String :=
  renderThousandths ⌊x * 1000 + 1 / 2⌋

/-- Embedding of `calculate_overall_score`.  After the loop, the division
`total_score * 10 / (N * math.sqrt(125))` raises ZeroDivisionError exactly
when `N = 0` (since `math.sqrt(125)` is nonzero), modelled by the length
test; otherwise the formatted score is returned under the raw name. -/
noncomputable def calculate_overall_score (restaurant_name : String)
    (food_scores customer_service_scores : List ℤ) :
    Except ScoreError (String × String) :=
  match scoreLoop 0 food_scores customer_service_scores with
  | .error e => .error e
  | .ok total_score =>
    if food_scores.length = 0 then .error .zeroDivisionError
    else .ok (restaurant_name,
      pyFormat3 (total_score * 10 / ((food_scores.length : ℝ) * Real.sqrt 125)))

/-- Written from the spec text of the scoring algorithm: for each index `i`
compute the square root of `food_scores[i]` squared times
`customer_service_scores[i]`, sum over all `i`, multiply by 10 and divide by
`N * sqrt(125)` where `N` is the common length. -/
noncomputable def spec_overall_score (food_scores customer_service_scores : List ℤ) : ℝ :=
  (((food_scores.zip customer_service_scores).map
      (fun p => Real.sqrt ((p.1 ^ 2 * p.2 : ℤ) : ℝ))).sum) * 10 /
    ((food_scores.length : ℝ) * Real.sqrt 125)

/-- A decimal string with exactly three digits after the decimal point. -/
def threeDecimalString (s : String) : Prop :=
  ∃ intPart fracPart, s = intPart ++ "." ++ String.mk fracPart
    ∧ fracPart.length = 3 ∧ ∀ c ∈ fracPart, c.isDigit = true

theorem digitChar_isDigit (n : Nat) (h : n < 10) : (digitChar n).isDigit = true := by
  interval_cases n <;> decide

theorem renderThousandths_threeDecimal (m : ℤ) :
    threeDecimalString (renderThousandths m) := by
  refine ⟨(if m < 0 then "-" else "") ++ toString (m.natAbs / 1000),
    fracDigits (m.natAbs % 1000), ?_, rfl, ?_⟩
  · rw [renderThousandths]
  · intro c hc
    have hlt : m.natAbs % 1000 < 1000 := Nat.mod_lt _ (by norm_num)
    simp only [fracDigits, List.mem_cons, List.not_mem_nil, or_false] at hc
    rcases hc with rfl | rfl | rfl
    · exact digitChar_isDigit _ (by omega)
    · exact digitChar_isDigit _ (Nat.mod_lt _ (by norm_num))
    · exact digitChar_isDigit _ (Nat.mod_lt _ (by norm_num))

theorem scoreLoop_ok (total_score : ℝ) (fs ss : List ℤ)
    (hlen : fs.length ≤ ss.length)
    (hnn : ∀ p ∈ fs.zip ss, 0 ≤ p.1 ^ 2 * p.2) :
    scoreLoop total_score fs ss =
      .ok (total_score +
        ((fs.zip ss).map (fun p => Real.sqrt ((p.1 ^ 2 * p.2 : ℤ) : ℝ))).sum) := by
  induction fs generalizing total_score ss with
  | nil => simp [scoreLoop]
  | cons f fs ih =>
    cases ss with
    | nil => simp at hlen
    | cons s ss =>
      rw [scoreLoop, if_neg (not_lt.mpr (hnn (f, s) (by simp)))]
      rw [ih _ ss (by simpa using hlen) (fun p hp => hnn p (by simp [hp]))]
      congr 1
      simp only [List.zip_cons_cons, List.map_cons, List.sum_cons]
      ring

theorem scoreLoop_shorter (total_score : ℝ) (fs ss : List ℤ)
    (h : ss.length < fs.length) :
    ∃ e, scoreLoop total_score fs ss = .error e := by
  induction fs generalizing total_score ss with
  | nil => simp at h
  | cons f fs ih =>
    cases ss with
    | nil => exact ⟨.indexError, rfl⟩
    | cons s ss =>
      rw [scoreLoop]
      by_cases hneg : f ^ 2 * s < 0
      · exact ⟨.valueError, by rw [if_pos hneg]⟩
      · rw [if_neg hneg]
        exact ih _ ss (by simpa using h)

theorem scoreLoop_take (total_score : ℝ) (fs ss : List ℤ) :
    scoreLoop total_score fs ss = scoreLoop total_score fs (ss.take fs.length) := by
  induction fs generalizing total_score ss with
  | nil => rfl
  | cons f fs ih =>
    cases ss with
    | nil => rfl
    | cons s ss =>
      rw [List.length_cons, List.take_succ_cons, scoreLoop, scoreLoop]
      by_cases hneg : f ^ 2 * s < 0
      · rw [if_pos hneg, if_pos hneg]
      · rw [if_neg hneg, if_neg hneg]
        exact ih _ ss

theorem sqrt125_gt : (11.18 : ℝ) < Real.sqrt 125 :=
  (Real.lt_sqrt (by norm_num)).mpr (by norm_num)

theorem sqrt125_lt : Real.sqrt 125 < 11.19 :=
  (Real.sqrt_lt' (by norm_num)).mpr (by norm_num)

theorem sqrt125_pos : 0 < Real.sqrt 125 :=
  lt_trans (by norm_num) sqrt125_gt

theorem floor_ten_div_sqrt125 : ⌊10 / Real.sqrt 125 * 1000 + 1 / 2⌋ = (894 : ℤ) := by
  have h1 := sqrt125_gt
  have h2 := sqrt125_lt
  have h3 := sqrt125_pos
  rw [Int.floor_eq_iff]
  constructor
  · have hlow : (0.8935 : ℝ) < 10 / Real.sqrt 125 := by
      rw [lt_div_iff₀ h3]
      nlinarith
    push_cast
    nlinarith
  · have hhigh : 10 / Real.sqrt 125 < (0.8945 : ℝ) := by
      rw [div_lt_iff₀ h3]
      nlinarith
    push_cast
    nlinarith

theorem pyFormat3_ten_div_sqrt125 : pyFormat3 (10 / Real.sqrt 125) = "0.894" := by
  rw [pyFormat3, floor_ten_div_sqrt125]
  rfl

theorem pyFormat3_ten : pyFormat3 (10 : ℝ) = "10.000" := by
  have hfloor : ⌊(10 : ℝ) * 1000 + 1 / 2⌋ = (10000 : ℤ) := by
    rw [Int.floor_eq_iff]
    norm_num
  rw [pyFormat3, hfloor]
  rfl

/-- The score of food `[1]` against service `1 ::` anything: the loop reads
only the first service value, and `sqrt(1) * 10 / sqrt(125)` formats to
`0.894`. -/
theorem overall_one_helper (restaurant_name : String) (extra : List ℤ) :
    calculate_overall_score restaurant_name [1] (1 :: extra) =
      .ok (restaurant_name, "0.894") := by
  have hloop : scoreLoop 0 [1] (1 :: extra) = .ok 1 := by
    rw [scoreLoop, if_neg (by norm_num), scoreLoop]
    norm_num
  have hX : (1 : ℝ) * 10 / ((([1] : List ℤ).length : ℝ) * Real.sqrt 125) =
      10 / Real.sqrt 125 := by
    have hlen1 : (([1] : List ℤ).length : ℝ) = 1 := by norm_num
    rw [hlen1, one_mul, one_mul]
  simp only [calculate_overall_score, hloop]
  rw [if_neg (by simp), hX, pyFormat3_ten_div_sqrt125]

/-- C8: the maximum single-review case food `[5]`, service `[5]` returns
exactly the formatted score `10.000`. -/
theorem calculate_overall_score_max_case (restaurant_name : String) :
    calculate_overall_score restaurant_name [5] [5] = .ok (restaurant_name, "10.000") := by
  have h125 : (((5 : ℤ) ^ 2 * 5 : ℤ) : ℝ) = (125 : ℝ) := by norm_num
  have hloop : scoreLoop 0 [5] [5] = .ok (Real.sqrt 125) := by
    rw [scoreLoop, if_neg (by norm_num), scoreLoop]
    rw [h125, zero_add]
  have hne : Real.sqrt 125 ≠ 0 := ne_of_gt sqrt125_pos
  have hX : Real.sqrt 125 * 10 / ((([5] : List ℤ).length : ℝ) * Real.sqrt 125) =
      (10 : ℝ) := by
    have hlen1 : (([5] : List ℤ).length : ℝ) = 1 := by norm_num
    rw [hlen1, one_mul, mul_comm, mul_div_assoc, div_self hne, mul_one]
  simp only [calculate_overall_score, hloop]
  rw [if_neg (by simp), hX, pyFormat3_ten]

/-- C9 amended: food `[1]`, service `[1]` returns the formatted score `0.894`
(the value `10 / sqrt(125)` to three decimals), not `2.000`. -/
theorem calculate_overall_score_one_one (restaurant_name : String) :
    calculate_overall_score restaurant_name [1] [1] = .ok (restaurant_name, "0.894") :=
  overall_one_helper restaurant_name []

/-- C9 counterexample: at food `[1]`, service `[1]` the result is not the
claimed `2.000` (the code returns `0.894`). -/
theorem calculate_overall_score_one_one_cex :
    calculate_overall_score "Applebees" [1] [1] ≠ .ok ("Applebees", "2.000") := by
  intro hcontra
  rw [overall_one_helper "Applebees" []] at hcontra
  have h2 : (("Applebees", "0.894") : String × String) = ("Applebees", "2.000") := by
    injection hcontra
  have h3 : "0.894" = "2.000" := congrArg Prod.snd h2
  exact absurd h3 (by decide)

/-- C1 counterexample: a negative service score makes the integer product
negative, so `math.sqrt` fails (math domain ValueError) instead of returning
a formatted score. -/
theorem calculate_overall_score_negative_service_cex :
    calculate_overall_score "A" [1] [-1] = .error .valueError := by
  have hloop : scoreLoop 0 [1] [-1] = .error .valueError := by
    rw [scoreLoop, if_pos (by norm_num)]
  simp only [calculate_overall_score, hloop]

/-- C1 amended: for non-empty equal-length integer sequences all of whose
products `food_scores[i]^2 * customer_service_scores[i]` are non-negative
(the `math.sqrt` domain), the result maps the raw name to the spec formula
`sum sqrt(f_i^2 * s_i) * 10 / (N * sqrt 125)` rendered as a decimal string
with exactly three digits after the decimal point. -/
theorem calculate_overall_score_matches_spec_formula (restaurant_name : String)
    (food_scores customer_service_scores : List ℤ)
    (hne : food_scores ≠ [])
    (hlen : food_scores.length = customer_service_scores.length)
    (hnn : ∀ p ∈ food_scores.zip customer_service_scores, 0 ≤ p.1 ^ 2 * p.2) :
    calculate_overall_score restaurant_name food_scores customer_service_scores =
      .ok (restaurant_name,
        pyFormat3 (spec_overall_score food_scores customer_service_scores))
    ∧ threeDecimalString
        (pyFormat3 (spec_overall_score food_scores customer_service_scores)) := by
  have hloop := scoreLoop_ok 0 food_scores customer_service_scores (le_of_eq hlen) hnn
  rw [zero_add] at hloop
  constructor
  · simp only [calculate_overall_score, hloop]
    rw [if_neg (by rw [List.length_eq_zero]; exact hne), spec_overall_score]
  · rw [pyFormat3]
    exact renderThousandths_threeDecimal _

/-- C1 witness: the amended theorem applied to food `[1, 2]`, service
`[3, 4]`. -/
theorem calculate_overall_score_matches_spec_formula_witness :
    (([1, 2] : List ℤ) ≠ [] ∧ ([1, 2] : List ℤ).length = ([3, 4] : List ℤ).length ∧
      ∀ p ∈ ([1, 2] : List ℤ).zip ([3, 4] : List ℤ), 0 ≤ p.1 ^ 2 * p.2)
    ∧ (calculate_overall_score "A" [1, 2] [3, 4] =
        .ok ("A", pyFormat3 (spec_overall_score [1, 2] [3, 4]))
      ∧ threeDecimalString (pyFormat3 (spec_overall_score [1, 2] [3, 4]))) :=
  ⟨⟨by decide, by decide, by decide⟩,
    calculate_overall_score_matches_spec_formula "A" [1, 2] [3, 4]
      (by decide) (by decide) (by decide)⟩

/-- C2 counterexample: with food `[1]` and the strictly longer service
`[1, 1]` the call does not fail: it returns the score of the truncated pair,
`0.894`. -/
theorem calculate_overall_score_truncates_cex :
    calculate_overall_score "A" [1] [1, 1] = .ok ("A", "0.894") :=
  overall_one_helper "A" [1]

/-- C2 amended: no ScoreInputError exists.  Empty `food_scores` (in
particular two empty lists) fail with the division-by-zero error; a
`customer_service_scores` shorter than `food_scores` fails with a runtime
error (index error, or the math domain error on an earlier negative product);
a strictly longer one is silently truncated (see the C10 theorem). -/
theorem calculate_overall_score_no_length_validation (restaurant_name : String)
    (food_scores customer_service_scores : List ℤ) :
    (food_scores = [] →
      calculate_overall_score restaurant_name food_scores customer_service_scores =
        .error .zeroDivisionError)
    ∧ (customer_service_scores.length < food_scores.length →
      ∃ e, calculate_overall_score restaurant_name food_scores customer_service_scores =
        .error e) := by
  constructor
  · rintro rfl
    rfl
  · intro hlt
    obtain ⟨e, he⟩ := scoreLoop_shorter 0 food_scores customer_service_scores hlt
    exact ⟨e, by simp only [calculate_overall_score, he]⟩

/-- C2 witness: the amended theorem applied to two empty lists. -/
theorem calculate_overall_score_no_length_validation_witness :
    calculate_overall_score "A" [] [] = .error .zeroDivisionError :=
  (calculate_overall_score_no_length_validation "A" [] []).1 rfl

/-- C10 counterexample: with food `[1]` and the strictly longer service
`[-1, 5]` the call does not succeed: the first (used) product is negative and
`math.sqrt` fails. -/
theorem extra_service_scores_ignored_cex :
    calculate_overall_score "A" [1] [-1, 5] = .error .valueError := by
  have hloop : scoreLoop 0 [1] [-1, 5] = .error .valueError := by
    rw [scoreLoop, if_pos (by norm_num)]
  simp only [calculate_overall_score, hloop]

/-- C10 amended: the extra customer-service values are never read, so the
result is exactly the one for the truncated list; and when every used product
`food_scores[i]^2 * customer_service_scores[i]` is non-negative the call
succeeds without any error. -/
theorem extra_service_scores_ignored (restaurant_name : String)
    (food_scores customer_service_scores : List ℤ)
    (hne : food_scores ≠ [])
    (hlen : food_scores.length < customer_service_scores.length) :
    calculate_overall_score restaurant_name food_scores customer_service_scores =
      calculate_overall_score restaurant_name food_scores
        (customer_service_scores.take food_scores.length)
    ∧ ((∀ p ∈ food_scores.zip customer_service_scores, 0 ≤ p.1 ^ 2 * p.2) →
      ∃ v, calculate_overall_score restaurant_name food_scores customer_service_scores =
        .ok (restaurant_name, v)) := by
  constructor
  · rw [calculate_overall_score, calculate_overall_score,
      scoreLoop_take 0 food_scores customer_service_scores]
  · intro hnn
    have hloop := scoreLoop_ok 0 food_scores customer_service_scores (le_of_lt hlen) hnn
    rw [zero_add] at hloop
    refine ⟨pyFormat3 (((food_scores.zip customer_service_scores).map
        (fun p => Real.sqrt ((p.1 ^ 2 * p.2 : ℤ) : ℝ))).sum * 10 /
        ((food_scores.length : ℝ) * Real.sqrt 125)), ?_⟩
    simp only [calculate_overall_score, hloop]
    rw [if_neg (by rw [List.length_eq_zero]; exact hne)]

/-- C10 witness: the amended theorem applied to food `[2]`, service `[3, 9]`. -/
theorem extra_service_scores_ignored_witness :
    (([2] : List ℤ) ≠ [] ∧ ([2] : List ℤ).length < ([3, 9] : List ℤ).length)
    ∧ (calculate_overall_score "A" [2] [3, 9] =
        calculate_overall_score "A" [2] (([3, 9] : List ℤ).take ([2] : List ℤ).length)
      ∧ ((∀ p ∈ ([2] : List ℤ).zip ([3, 9] : List ℤ), 0 ≤ p.1 ^ 2 * p.2) →
        ∃ v, calculate_overall_score "A" [2] [3, 9] = .ok ("A", v))) :=
  ⟨⟨by decide, by decide⟩,
    extra_service_scores_ignored "A" [2] [3, 9] (by decide) (by decide)⟩

/-! ## The pipeline coordinator

`main` registers the store and scorer functions with the agents and hands the
external conversational runtime (`initiate_chats`) a fixed, straight-line
list of three chat stages.  The deterministic content of that call — the
recipients, opening messages, turn caps and summary methods, in order — is
embedded as data. -/

/-- One entry of the list passed to `initiate_chats`: recipient agent,
opening message, turn cap, and summary method. -/
structure ChatSpec where
  recipient : String
  message : String
  max_turns : Nat
  summary_method : String
  deriving DecidableEq

/-- Embedding of `main`: the chat sequence the entrypoint agent initiates,
in source order (fetch, then analyze, then score), with no branching. -/
def main (user_query : String) : List ChatSpec :=
  [⟨"data_fetch_agent", "Query: " ++ user_query, 2, "last_msg"⟩,
   ⟨"review_analysis_agent", "Here are the reviews", 2, "last_msg"⟩,
   ⟨"scoring_agent", "Here are the scores", 2, "last_msg"⟩]

/-- Modelled from the spec: the summarization of a finished stage exchange is
performed by the external conversational runtime, missing from the source;
per the spec, the configured method `last_msg` takes the content of the last
message of the exchange. -/
def stage_summary (summary_method : String) (messages : List String) : Option String :=
  if summary_method = "last_msg" then messages.getLast? else none

/-- C7: the coordinator runs exactly the three stages fetch, analyze, score,
in that fixed order, opening with `Query: {user_query}`, `Here are the
reviews` and `Here are the scores` respectively, each capped at 2 turns and
each summarized by the content of the last message of its exchange. -/
theorem main_pipeline_fixed_stages (user_query : String) :
    main user_query =
      [⟨"data_fetch_agent", "Query: " ++ user_query, 2, "last_msg"⟩,
       ⟨"review_analysis_agent", "Here are the reviews", 2, "last_msg"⟩,
       ⟨"scoring_agent", "Here are the scores", 2, "last_msg"⟩]
    ∧ (main user_query).length = 3
    ∧ (∀ stage ∈ main user_query, stage.max_turns = 2 ∧ stage.summary_method = "last_msg")
    ∧ ∀ messages : List String, stage_summary "last_msg" messages = messages.getLast? := by
  refine ⟨rfl, rfl, ?_, fun messages => rfl⟩
  intro stage hstage
  rcases List.mem_cons.mp hstage with rfl | hstage
  · exact ⟨rfl, rfl⟩
  rcases List.mem_cons.mp hstage with rfl | hstage
  · exact ⟨rfl, rfl⟩
  rcases List.mem_cons.mp hstage with rfl | hstage
  · exact ⟨rfl, rfl⟩
  exact absurd hstage (by simp)

/-- C7 witness: the scoring stage of the query `hi` is in the sequence, is
capped at 2 turns and is summarized by its last message. -/
theorem main_pipeline_fixed_stages_witness :
    (⟨"scoring_agent", "Here are the scores", 2, "last_msg"⟩ : ChatSpec) ∈ main "hi"
    ∧ ((⟨"scoring_agent", "Here are the scores", 2, "last_msg"⟩ : ChatSpec).max_turns = 2
      ∧ (⟨"scoring_agent", "Here are the scores", 2, "last_msg"⟩ :
          ChatSpec).summary_method = "last_msg") :=
  ⟨by decide,
    (main_pipeline_fixed_stages "hi").2.2.1
      ⟨"scoring_agent", "Here are the scores", 2, "last_msg"⟩ (by decide)⟩

end RestaurantReviews
